import Mathlib

/-!
Shallow embedding of the request governor (class RateLimiter) of the
linear-mcp-server repository, together with proofs about its queueing,
pacing, batching and metrics behaviour.

Modelling conventions:
* Clock readings (Date.now) and durations are exact rationals, so that the
  fractional minimum inter-call interval 3600000/1400 ms is represented
  exactly; all quantities compared by the source are integral or of this
  form, so rational comparisons agree with the JavaScript number
  comparisons of the source.
* An asynchronous operation is modelled by the data the governor can
  observe: the value or error its promise settles with and the time it
  takes to settle once invoked.
* JavaScript run-to-completion semantics: a promise continuation never
  runs while a synchronous stretch of code is still executing, and the
  drain loop awaits each queue entry before touching the next one, so the
  loop is modelled as a sequential recursion over the queue contents.
-/

namespace LinearMCP

variable {α ε ι : Type}

/-- Observable behaviour of one asynchronous operation handed to the
governor: an identifier used only to trace it through the run, the value
or error the operation settles with, how long it runs once invoked, and
the clock reading captured when it was enqueued (the source captures
startTime with Date.now at the top of enqueue). -/
structure Op (α ε : Type) where
  id : Nat
  result : Except ε α
  duration : ℚ
  startTime : ℚ := 0

/-- Mutable fields of class RateLimiter, with their source initializers:
empty queue, processing flag down, lastRequestTime 0, empty duration and
timestamp logs. -/
structure RL (α ε : Type) where
  queue : List (Op α ε) := []
  processing : Bool := false
  lastRequestTime : ℚ := 0
  requestTimes : List ℚ := []
  requestTimestamps : List ℚ := []

/-- The readonly field requestsPerHour of class RateLimiter. -/
def requestsPerHour : ℚ := 1400

/-- The readonly field minDelayMs, 3600000 / requestsPerHour. -/
def minDelayMs : ℚ := 3600000 / requestsPerHour

/-- A RateLimiter as freshly constructed: the class has no constructor
body, every field takes its initializer; in particular no clock reading
is recorded at construction. -/
def initRL (α ε : Type) : RL α ε := {}

/-- JavaScript Array.prototype.slice with explicit start and end
positions: a negative position counts from the end of the array, and both
positions are clamped into the interval from 0 to the length. Note that
the JavaScript number -0 equals 0, so slicing from -0 is slicing from 0,
which keeps the whole array. -/
def jsSlice (l : List ι) (s e : Int) : List ι :=
  let len : Int := l.length
  let s' := if s < 0 then max (len + s) 0 else min s len
  let e' := if e < 0 then max (len + e) 0 else min e len
  (l.drop s'.toNat).take (e' - s').toNat

/-- Method trackRequest of class RateLimiter: push the duration and the
start timestamp, prune the timestamp log to the trailing hour, and cut
the duration log to its last requestTimestamps.length entries using
slice with a negated length. The parameter now stands for the Date.now
call inside the method; the drain loop calls it in the same tick as
endTime. -/
def trackRequest (s : RL α ε) (startTime endTime now : ℚ) : RL α ε :=
  let duration := endTime - startTime
  let requestTimes := s.requestTimes ++ [duration]
  let requestTimestamps := s.requestTimestamps ++ [startTime]
  let oneHourAgo := now - 3600000
  let requestTimestamps := requestTimestamps.filter (fun t => decide (oneHourAgo < t))
  let requestTimes :=
    jsSlice requestTimes (-(requestTimestamps.length : Int)) requestTimes.length
  { s with requestTimes := requestTimes, requestTimestamps := requestTimestamps }

/-- The record returned by getMetrics, interface RateLimiterMetrics. -/
structure RateLimiterMetrics where
  totalRequests : Nat
  requestsInLastHour : Nat
  averageRequestTime : ℚ
  queueLength : Nat
  lastRequestTime : ℚ

/-- Method getMetrics of class RateLimiter, reading at clock value now:
it filters a local copy of the timestamp log for the requestsInLastHour
count but mutates nothing, and it averages the whole stored duration
log. -/
def getMetrics (s : RL α ε) (now : ℚ) : RateLimiterMetrics :=
  let oneHourAgo := now - 3600000
  let recentRequests := s.requestTimestamps.filter (fun t => decide (oneHourAgo < t))
  { totalRequests := s.requestTimestamps.length
    requestsInLastHour := recentRequests.length
    averageRequestTime :=
      if 0 < s.requestTimes.length then
        s.requestTimes.sum / (s.requestTimes.length : ℚ)
      else 0
    queueLength := s.queue.length
    lastRequestTime := s.lastRequestTime }

/-- Synchronous effect of method enqueue of class RateLimiter: capture
startTime from the current clock and push the wrapped thunk at the tail
of the queue. The wrapped thunk itself is run by the drain loop, see
runWrapped; the promise handed back to the caller settles with the trace
entry carrying this operation identifier. -/
def enqueue (s : RL α ε) (now : ℚ) (op : Op α ε) : RL α ε :=
  { s with queue := s.queue ++ [{ op with startTime := now }] }

/-- A sequence of enqueue calls, each pair giving the clock reading at
that submission and the operation submitted. -/
def submitAll (s : RL α ε) (l : List (ℚ × Op α ε)) : RL α ε :=
  l.foldl (fun s p => enqueue s p.1 p.2) s

/-- One record of the drain trace: which operation the loop invoked, the
clock reading at its invocation (the value written to lastRequestTime
just before the call), and the settlement delivered to the promise of
that operation. -/
structure Entry (α ε : Type) where
  id : Nat
  start : ℚ
  outcome : Except ε α

/-- Execution of the wrapped thunk built in enqueue: await fn, and on
success take endTime, track the request and resolve with the result; on
rejection skip tracking and reject with the same error. Returns the
updated state, the clock after settlement, and the trace entry. -/
def runWrapped (s : RL α ε) (now : ℚ) (op : Op α ε) : RL α ε × ℚ × Entry α ε :=
  let endTime := now + op.duration
  match op.result with
  | Except.ok v => (trackRequest s op.startTime endTime endTime, endTime, ⟨op.id, now, Except.ok v⟩)
  | Except.error e => (s, endTime, ⟨op.id, now, Except.error e⟩)

/-- The while loop of method processQueue of class RateLimiter, recursing
over the queue contents: each iteration reads the clock, counts the call
starts recorded within the trailing hour, waits out the remaining part of
the minimum inter-call interval when utilization is at or above ninety
percent of the hourly quota and the interval has not yet elapsed, then
shifts the head entry, stamps lastRequestTime with the current clock and
awaits the wrapped thunk before the next iteration. -/
def drainList (s : RL α ε) (now : ℚ) : List (Op α ε) → RL α ε × ℚ × List (Entry α ε)
  | [] => (s, now, [])
  | op :: rest =>
    let timeSinceLastRequest := now - s.lastRequestTime
    let requestsInLastHour :=
      (s.requestTimestamps.filter (fun t => decide (now - 3600000 < t))).length
    let wait :=
      if requestsPerHour * (9 / 10) ≤ (requestsInLastHour : ℚ) ∧
          timeSinceLastRequest < minDelayMs then
        minDelayMs - timeSinceLastRequest
      else 0
    let start := now + wait
    let d := runWrapped { s with lastRequestTime := start } start op
    let d' := drainList d.1 d.2.1 rest
    (d'.1, d'.2.1, d.2.2 :: d'.2.2)

/-- The pacing delay computed at the top of one iteration of the drain
loop, zero when no throttling applies; definitionally the wait of
drainList. -/
def drainWait (s : RL α ε) (now : ℚ) : ℚ :=
  if requestsPerHour * (9 / 10) ≤
        (((s.requestTimestamps.filter (fun t => decide (now - 3600000 < t))).length : ℚ)) ∧
      now - s.lastRequestTime < minDelayMs then
    minDelayMs - (now - s.lastRequestTime)
  else 0

/-- One iteration of the drain loop on the head operation: wait out the
pacing delay, stamp lastRequestTime with the clock after the wait and run
the wrapped thunk; definitionally the body of drainList. -/
def drainStep (s : RL α ε) (now : ℚ) (op : Op α ε) : RL α ε × ℚ × Entry α ε :=
  runWrapped { s with lastRequestTime := now + drainWait s now } (now + drainWait s now) op

/-- Method processQueue of class RateLimiter: return at once when the
loop is already active or the queue is empty; otherwise raise the
reentrancy flag, drain the queue to exhaustion and clear the flag. -/
def processQueue (s : RL α ε) (now : ℚ) : RL α ε × ℚ × List (Entry α ε) :=
  if s.processing || s.queue.isEmpty then (s, now, [])
  else
    let d := drainList { s with processing := true, queue := [] } now s.queue
    ({ d.1 with processing := false }, d.2.1, d.2.2)

/-- The chunking for loop of method batch, with explicit fuel: starting
from position i, while i is below items.length the loop takes
slice(i, i + batchSize) as the next group and advances i by batchSize.
Fuel bounds the number of iterations; none means the budget ran out
before the loop condition failed. -/
def batchChunksFuel (items : List ι) (batchSize : Int) : Nat → Int → Option (List (List ι))
  | 0, _ => none
  | fuel + 1, i =>
    if i < (items.length : Int) then
      match batchChunksFuel items batchSize fuel (i + batchSize) with
      | none => none
      | some rest => some (jsSlice items i (i + batchSize) :: rest)
    else some []

/-- The groups built by the chunking loop of batch when it terminates;
items.length + 1 iterations are enough for every batchSize of at least
one. -/
def batchChunks (items : List ι) (batchSize : Int) : Option (List (List ι)) :=
  batchChunksFuel items batchSize (items.length + 1) 0

/-- Value of the array method batch resolves with, when its chunk loop
terminates: each group goes through a join of the governed per-item
operations, whose settlements are positioned inside the group by item
position, never by settlement time; the groups are joined in order and
the final array is their flattening. Each governed operation settles
with its own result, see drainList_trace. -/
def batch (items : List ι) (batchSize : Int) (f : ι → α) : Option (List α) :=
  (batchChunks items batchSize).map (fun gs => (gs.map (fun g => g.map f)).flatten)

/-- Enqueue order produced by the synchronous pass of method batch: the
for loop calls enqueue for every item of every group and pushes the group
joins without awaiting anything, so every item of every group is
submitted during this single synchronous pass; by run-to-completion no
queued settlement can run before the pass ends. -/
def batchSubmissionOrder (items : List ι) (batchSize : Int) : Option (List ι) :=
  (batchChunks items batchSize).map List.flatten

/-- Number of operations of one batch call that are submitted and not
yet settled when its synchronous pass ends: by run-to-completion this is
every submitted operation of the call. -/
def outstandingAfterSubmission (items : List ι) (batchSize : Int) : Option Nat :=
  (batchSubmissionOrder items batchSize).map List.length

/-! Helper lemmas about the drain loop. -/

/-- The trace entry produced for one wrapped thunk carries the identifier
of the operation, the invocation clock and the own settlement of the
operation, on success and on rejection alike. -/
theorem runWrapped_entry (s : RL α ε) (now : ℚ) (op : Op α ε) :
    (runWrapped s now op).2.2 = ⟨op.id, now, op.result⟩ := by
  cases h : op.result <;> simp [runWrapped, h]

/-- Running one wrapped thunk never touches the queue. -/
theorem runWrapped_queue (s : RL α ε) (now : ℚ) (op : Op α ε) :
    (runWrapped s now op).1.queue = s.queue := by
  cases h : op.result <;> simp [runWrapped, trackRequest, h]

/-- Running one wrapped thunk never touches the reentrancy flag. -/
theorem runWrapped_processing (s : RL α ε) (now : ℚ) (op : Op α ε) :
    (runWrapped s now op).1.processing = s.processing := by
  cases h : op.result <;> simp [runWrapped, trackRequest, h]

/-- Running one wrapped thunk leaves lastRequestTime as the loop set it. -/
theorem runWrapped_lastRequestTime (s : RL α ε) (now : ℚ) (op : Op α ε) :
    (runWrapped s now op).1.lastRequestTime = s.lastRequestTime := by
  cases h : op.result <;> simp [runWrapped, trackRequest, h]

/-- Settlements of the drain loop, in order: every queue entry yields
exactly one trace entry, carrying that entry's identifier and own
settlement, whether it resolves or rejects. -/
theorem drainList_trace (q : List (Op α ε)) : ∀ (s : RL α ε) (now : ℚ),
    ((drainList s now q).2.2).map (fun en => (en.id, en.outcome)) =
      q.map (fun op => (op.id, op.result)) := by
  induction q with
  | nil => intro s now; simp [drainList]
  | cons op rest ih =>
    intro s now
    simp [drainList, runWrapped_entry, ih]

/-- Start order of the drain loop: the trace lists the queue identifiers
in queue order. -/
theorem drainList_ids (q : List (Op α ε)) (s : RL α ε) (now : ℚ) :
    ((drainList s now q).2.2).map Entry.id = q.map Op.id := by
  have h := congrArg (List.map Prod.fst) (drainList_trace q s now)
  simpa [List.map_map, Function.comp] using h

/-- The drain loop leaves the queue field of the state alone; the source
consumes the queue with shift, modelled here by recursing over the
snapshot of its contents. -/
theorem drainList_queue (q : List (Op α ε)) : ∀ (s : RL α ε) (now : ℚ),
    ((drainList s now q).1).queue = s.queue := by
  induction q with
  | nil => intro s now; simp [drainList]
  | cons op rest ih =>
    intro s now
    simp [drainList, ih, runWrapped_queue]

/-- Unfolding lemma: submitting nothing changes nothing. -/
theorem submitAll_nil (s : RL α ε) : submitAll s [] = s := rfl

/-- Unfolding lemma: submitting a first operation and then the rest. -/
theorem submitAll_cons (s : RL α ε) (p : ℚ × Op α ε) (l : List (ℚ × Op α ε)) :
    submitAll s (p :: l) = submitAll (enqueue s p.1 p.2) l := rfl

/-- Submissions append to the queue tail in submission order, each entry
stamped with its submission clock, and do not flip the reentrancy flag. -/
theorem submitAll_queue (l : List (ℚ × Op α ε)) : ∀ (s : RL α ε),
    (submitAll s l).queue =
        s.queue ++ l.map (fun p => { p.2 with startTime := p.1 }) ∧
      (submitAll s l).processing = s.processing := by
  induction l with
  | nil => intro s; simp [submitAll_nil]
  | cons p l ih =>
    intro s
    rw [submitAll_cons]
    rcases ih (enqueue s p.1 p.2) with ⟨h1, h2⟩
    refine ⟨?_, by simpa [enqueue] using h2⟩
    rw [h1]
    simp [enqueue]

/-- C1: in every drain loop step, a pacing delay is inserted before the
head operation is invoked exactly when the count of recorded call-start
timestamps within the trailing 3600000 ms window is at least ninety
percent of the hourly quota 1400 and the time elapsed since the last call
start is less than the minimum inter-call interval 3600000/1400 ms; the
inserted delay equals the minimum interval minus the elapsed time, and
otherwise the head operation is invoked at the current clock with no
added delay. -/
theorem pacing_backstop (s : RL α ε) (now : ℚ) (op : Op α ε) (rest : List (Op α ε)) :
    (((drainList s now (op :: rest)).2.2).head?).map Entry.start =
      some
        (if requestsPerHour * (9 / 10) ≤
              (((s.requestTimestamps.filter
                  (fun t => decide (now - 3600000 < t))).length : ℚ)) ∧
            now - s.lastRequestTime < minDelayMs then
          now + (minDelayMs - (now - s.lastRequestTime))
        else now) := by
  simp only [drainList, List.head?_cons, runWrapped_entry, Option.map_some]
  split_ifs <;> simp

/-- C2: operations submitted in order through enqueue are invoked by the
drain loop in exactly that submission order, first submitted first
invoked. -/
theorem fifo_start_order (l : List (ℚ × Op α ε)) (now : ℚ) :
    ((processQueue (submitAll (initRL α ε) l) now).2.2).map Entry.id =
      l.map (fun p => p.2.id) := by
  rcases submitAll_queue l (initRL α ε) with ⟨h1, h2⟩
  cases l with
  | nil => simp [submitAll_nil, processQueue, initRL]
  | cons p l' =>
    have hq : (submitAll (initRL α ε) (p :: l')).queue =
        { p.2 with startTime := p.1 } ::
          l'.map (fun p => { p.2 with startTime := p.1 }) := by
      simpa [initRL] using h1
    have hproc : (submitAll (initRL α ε) (p :: l')).processing = false := by
      simpa [initRL] using h2
    simp [processQueue, hq, hproc, drainList_ids, List.map_map, Function.comp]

/-- C4: when a submitted operation rejects at invocation, the rejection
is delivered only to that operation's caller: every queue entry still
yields its own settlement, the drain loop runs to completion, and the
queue is empty with the loop flag cleared afterwards. -/
theorem failure_isolation (s : RL α ε) (now : ℚ) (i : Nat) (e : ε)
    (hp : s.processing = false)
    (hi : (s.queue.get? i).map Op.result = some (Except.error e)) :
    (processQueue s now).1.queue = [] ∧
      (processQueue s now).1.processing = false ∧
      ((processQueue s now).2.2).map (fun en => (en.id, en.outcome)) =
        s.queue.map (fun op => (op.id, op.result)) := by
  have hne : s.queue ≠ [] := by
    intro h
    rw [h] at hi
    simp at hi
  have hie : s.queue.isEmpty = false := by
    cases hq : s.queue with
    | nil => exact absurd hq hne
    | cons a l => rfl
  simp [processQueue, hp, hie, drainList_queue, drainList_trace]

/-- Witness for C4 at a concrete three-operation submission whose middle
operation rejects. -/
theorem failure_isolation_witness :
    (submitAll (initRL Nat Unit)
        [(0, ⟨1, Except.ok 10, 5, 0⟩), (1, ⟨2, Except.error (), 5, 0⟩),
          (2, ⟨3, Except.ok 30, 5, 0⟩)]).processing = false ∧
    ((submitAll (initRL Nat Unit)
        [(0, ⟨1, Except.ok 10, 5, 0⟩), (1, ⟨2, Except.error (), 5, 0⟩),
          (2, ⟨3, Except.ok 30, 5, 0⟩)]).queue.get? 1).map Op.result =
      some (Except.error ()) ∧
    ((processQueue (submitAll (initRL Nat Unit)
        [(0, ⟨1, Except.ok 10, 5, 0⟩), (1, ⟨2, Except.error (), 5, 0⟩),
          (2, ⟨3, Except.ok 30, 5, 0⟩)]) 100).1.queue = [] ∧
      (processQueue (submitAll (initRL Nat Unit)
        [(0, ⟨1, Except.ok 10, 5, 0⟩), (1, ⟨2, Except.error (), 5, 0⟩),
          (2, ⟨3, Except.ok 30, 5, 0⟩)]) 100).1.processing = false ∧
      ((processQueue (submitAll (initRL Nat Unit)
        [(0, ⟨1, Except.ok 10, 5, 0⟩), (1, ⟨2, Except.error (), 5, 0⟩),
          (2, ⟨3, Except.ok 30, 5, 0⟩)]) 100).2.2).map (fun en => (en.id, en.outcome)) =
        (submitAll (initRL Nat Unit)
        [(0, ⟨1, Except.ok 10, 5, 0⟩), (1, ⟨2, Except.error (), 5, 0⟩),
          (2, ⟨3, Except.ok 30, 5, 0⟩)]).queue.map (fun op => (op.id, op.result))) :=
  ⟨rfl, rfl, failure_isolation _ 100 1 () rfl rfl⟩

/-- C5: the promise handed back for each submitted operation settles with
exactly that operation's own result or error: each queue entry yields
exactly one trace entry, whose settlement is the entry's own outcome,
unaltered. -/
theorem settle_verbatim (q : List (Op α ε)) (s : RL α ε) (now : ℚ) :
    ((drainList s now q).2.2).length = q.length ∧
    ∀ i : Nat,
      (((drainList s now q).2.2).get? i).map (fun en => (en.id, en.outcome)) =
        (q.get? i).map (fun op => (op.id, op.result)) := by
  have h := drainList_trace q s now
  refine ⟨by simpa using congrArg List.length h, ?_⟩
  intro i
  have h2 := congrArg (fun tl => tl.get? i) h
  simp only [List.get?_map] at h2
  exact h2

/-! Helper lemmas about the chunking loop of batch. -/

/-- One slice taken by the chunking loop, glued to the rest of the list:
for a position inside the list and a positive step, slice(i, i + n)
followed by the elements from position i + n is everything from position
i on. -/
theorem jsSlice_append_drop (items : List ι) (i n : Int) (h0 : 0 ≤ i)
    (hlt : i < (items.length : Int)) (hn : 1 ≤ n) :
    jsSlice items i (i + n) ++ items.drop (i + n).toNat = items.drop i.toNat := by
  simp only [jsSlice]
  have hs : ¬ i < 0 := by omega
  have hmin_s : min i (items.length : Int) = i := min_eq_left (le_of_lt hlt)
  have hne : ¬ i + n < 0 := by omega
  by_cases he : i + n ≤ (items.length : Int)
  · have hmin_e : min (i + n) (items.length : Int) = i + n := min_eq_left he
    rw [if_neg hs, if_neg hne, hmin_s, hmin_e]
    have h1 : i + n - i = n := by ring
    rw [h1]
    have h2 : (i + n).toNat = i.toNat + n.toNat := by omega
    rw [h2, ← List.drop_drop n.toNat i.toNat]
    exact List.take_append_drop _ _
  · have hmin_e : min (i + n) (items.length : Int) = (items.length : Int) :=
      min_eq_right (by omega)
    rw [if_neg hs, if_neg hne, hmin_s, hmin_e]
    have htake : ((items.length : Int) - i).toNat = items.length - i.toNat := by omega
    rw [htake]
    have hlen : (items.drop i.toNat).length ≤ items.length - i.toNat := by
      rw [List.length_drop]
    rw [List.take_of_length_le hlen]
    have hd : items.length ≤ (i + n).toNat := by omega
    rw [List.drop_eq_nil_of_le hd, List.append_nil]

/-- Unfolding lemma: with no fuel the chunking loop yields nothing. -/
theorem batchChunksFuel_zero (items : List ι) (n : Int) (i : Int) :
    batchChunksFuel items n 0 i = none := rfl

/-- Unfolding lemma: one funded iteration of the chunking loop. -/
theorem batchChunksFuel_succ (items : List ι) (n : Int) (fuel : Nat) (i : Int) :
    batchChunksFuel items n (fuel + 1) i =
      if i < (items.length : Int) then
        match batchChunksFuel items n fuel (i + n) with
        | none => none
        | some rest => some (jsSlice items i (i + n) :: rest)
      else some [] := rfl

/-- For a positive step, items.length + 1 iterations are enough for the
chunking loop: from any nonnegative start position with enough fuel it
terminates, and its groups flatten back to the tail of the list from
that position. -/
theorem chunksFuel_drop (items : List ι) (n : Int) (hn : 1 ≤ n) :
    ∀ (fuel : Nat) (i : Int), 0 ≤ i → (items.length : Int) - i ≤ fuel →
      ∃ c, batchChunksFuel items n (fuel + 1) i = some c ∧
        c.flatten = items.drop i.toNat := by
  intro fuel
  induction fuel with
  | zero =>
    intro i h0 hle
    have hge : ¬ i < (items.length : Int) := by omega
    refine ⟨[], by rw [batchChunksFuel_succ, if_neg hge], ?_⟩
    have hd : items.length ≤ i.toNat := by omega
    simp [List.drop_eq_nil_of_le hd]
  | succ fuel ih =>
    intro i h0 hle
    by_cases hlt : i < (items.length : Int)
    · obtain ⟨c, hc, hf⟩ := ih (i + n) (by omega) (by omega)
      refine ⟨jsSlice items i (i + n) :: c, ?_, ?_⟩
      · rw [batchChunksFuel_succ, if_pos hlt, hc]
      · simp only [List.flatten_cons, hf]
        exact jsSlice_append_drop items i n h0 hlt hn
    · refine ⟨[], by rw [batchChunksFuel_succ, if_neg hlt], ?_⟩
      have hd : items.length ≤ i.toNat := by omega
      simp [List.drop_eq_nil_of_le hd]

/-- For a positive group size the chunking loop of batch terminates and
its groups flatten back to the item list in order. -/
theorem batchChunks_flatten (items : List ι) (n : Int) (hn : 1 ≤ n) :
    ∃ c, batchChunks items n = some c ∧ c.flatten = items := by
  obtain ⟨c, hc, hf⟩ :=
    chunksFuel_drop items n hn items.length 0 le_rfl (by omega)
  exact ⟨c, by simpa [batchChunks] using hc, by simpa using hf⟩

/-- With a nonpositive step the loop position never advances past a
nonpositive value, so the chunking loop runs out of any iteration
budget: the loop of batch never terminates. -/
theorem chunksFuel_none_nonpos (items : List ι) (n : Int) (hn : n ≤ 0)
    (hne : items ≠ []) :
    ∀ (fuel : Nat) (i : Int), i ≤ 0 → batchChunksFuel items n fuel i = none := by
  intro fuel
  induction fuel with
  | zero => intro i hi; rfl
  | succ fuel ih =>
    intro i hi
    have hlen : 0 < items.length := List.length_pos.mpr hne
    have hlt : i < (items.length : Int) := by
      have h : (0 : Int) < (items.length : Int) := by exact_mod_cast hlen
      omega
    rw [batchChunksFuel_succ, if_pos hlt, ih (i + n) (by omega)]

/-- C3: for every item list, positive group size and per-item operation,
batch resolves with an array of the same length as the input whose
position i holds the result of the operation on input item i, because
each result is positioned by its group and intra-group index and the
groups are joined in input order. -/
theorem batch_output_order (items : List ι) (n : Int) (f : ι → α) (hn : 1 ≤ n) :
    ∃ r, batch items n f = some r ∧ r.length = items.length ∧
      ∀ i : Nat, r.get? i = (items.get? i).map f := by
  obtain ⟨c, hc, hf⟩ := batchChunks_flatten items n hn
  refine ⟨items.map f, ?_, by simp, fun i => by simp [List.get?_map]⟩
  simp only [batch, hc, Option.map_some']
  rw [← List.map_flatten, hf]

/-- Witness for C3 at the five-item list with group size two. -/
theorem batch_output_order_witness :
    (1 : Int) ≤ 2 ∧
      ∃ r, batch ([10, 20, 30, 40, 50] : List ℕ) 2 (fun x => x + 1) = some r ∧
        r.length = ([10, 20, 30, 40, 50] : List ℕ).length ∧
        ∀ i : Nat,
          r.get? i = (([10, 20, 30, 40, 50] : List ℕ).get? i).map (fun x => x + 1) :=
  ⟨by decide, batch_output_order [10, 20, 30, 40, 50] 2 (fun x => x + 1) (by decide)⟩

/-- C8 counterexample: batch over three items with group size two submits
all three operations during its synchronous pass, before any settlement
can run, so three operations of the call are outstanding at once, more
than the group size two; the second group's item is submitted although
the first group has not settled. -/
theorem batch_chunk_overlap_cex :
    batchSubmissionOrder ([1, 2, 3] : List ℕ) 2 = some [1, 2, 3] ∧
      outstandingAfterSubmission ([1, 2, 3] : List ℕ) 2 = some 3 ∧ ¬ (3 ≤ 2) := by
  exact ⟨by decide, by decide, by decide⟩

/-- C8 amended: for every positive group size, batch submits every item
of every group to the governor during one synchronous pass, in input
order, without waiting for any group to settle; the group size only
shapes how results are aggregated. -/
theorem batch_submits_all_upfront (items : List ι) (n : Int) (hn : 1 ≤ n) :
    batchSubmissionOrder items n = some items := by
  obtain ⟨c, hc, hf⟩ := batchChunks_flatten items n hn
  simp [batchSubmissionOrder, hc, hf]

/-- Witness for the amended C8 at three items with group size two. -/
theorem batch_submits_all_upfront_witness :
    (1 : Int) ≤ 2 ∧ batchSubmissionOrder ([1, 2, 3] : List ℕ) 2 = some ([1, 2, 3] : List ℕ) :=
  ⟨by decide, batch_submits_all_upfront [1, 2, 3] 2 (by decide)⟩

/-- C10: for a nonpositive group size the chunking loop of batch never
advances its position, so it exhausts every iteration budget on a
nonempty item list and batch never terminates; for every group size of
at least one the loop terminates on every input. -/
theorem batch_groupSize_termination (ι : Type) :
    (∀ (items : List ι) (n : Int) (fuel : Nat), items ≠ [] → n ≤ 0 →
        batchChunksFuel items n fuel 0 = none) ∧
      ∀ (items : List ι) (n : Int), 1 ≤ n → ∃ c, batchChunks items n = some c := by
  constructor
  · intro items n fuel hne hn
    exact chunksFuel_none_nonpos items n hn hne fuel 0 le_rfl
  · intro items n hn
    obtain ⟨c, hc, _⟩ := batchChunks_flatten items n hn
    exact ⟨c, hc⟩

/-- Witness for C10: group size zero exhausts a concrete budget on a
concrete nonempty list, while group size two terminates on it. -/
theorem batch_groupSize_termination_witness :
    (([1, 2, 3] : List ℕ) ≠ [] ∧ (0 : Int) ≤ 0 ∧
        batchChunksFuel ([1, 2, 3] : List ℕ) 0 5 0 = none) ∧
      ((1 : Int) ≤ 2 ∧ ∃ c, batchChunks ([1, 2, 3] : List ℕ) 2 = some c) :=
  ⟨⟨by decide, by decide,
      (batch_groupSize_termination ℕ).1 [1, 2, 3] 0 5 (by decide) (by decide)⟩,
    by decide,
    (batch_groupSize_termination ℕ).2 [1, 2, 3] 2 (by decide)⟩

/-- C6 (exhibit of the code bug): tracking a single completed call whose
recorded start lies more than one hour before its end empties the
timestamp log, and slicing the duration log from the negated length -0
then keeps the whole duration log, so the two logs end up with different
lengths 0 and 1. -/
theorem track_length_mismatch :
    (trackRequest (initRL Unit Unit) 0 3600001 3600001).requestTimestamps.length = 0 ∧
      (trackRequest (initRL Unit Unit) 0 3600001 3600001).requestTimes.length = 1 := by
  constructor <;> norm_num [trackRequest, initRL, jsSlice]

/-- C7 counterexample: one completion of duration 100 is tracked at clock
100; a metrics read at clock 4000000, over an hour later with no
activity, reports a window count of 0 yet an average request time of
100, not 0 as the claim requires. -/
theorem metrics_stale_average_cex :
    (getMetrics (trackRequest (initRL Unit Unit) 0 100 100) 4000000).requestsInLastHour
        = 0 ∧
      (getMetrics (trackRequest (initRL Unit Unit) 0 100 100) 4000000).averageRequestTime
        = 100 ∧
      ¬ ((100 : ℚ) = 0) := by
  refine ⟨?_, ?_, by norm_num⟩ <;>
    norm_num [getMetrics, trackRequest, initRL, jsSlice]

/-- C7 amended: a metrics read counts as requestsInLastHour the recorded
call starts strictly newer than now minus 3600000 ms, but its
averageRequestTime is the mean of the whole stored duration log, which
only tracked completions prune; the average therefore does not depend on
the reading clock at all. -/
theorem metrics_window_amended (s : RL α ε) (now now' : ℚ) :
    (getMetrics s now).requestsInLastHour =
        (s.requestTimestamps.filter (fun t => decide (now - 3600000 < t))).length ∧
      (getMetrics s now).averageRequestTime = (getMetrics s now').averageRequestTime := by
  constructor <;> simp [getMetrics]

/-- Unfolding lemma: the drain loop on an empty queue stops at once. -/
theorem drainList_nil (s : RL α ε) (now : ℚ) : drainList s now [] = (s, now, []) := rfl

/-- Unfolding lemma: one iteration of the drain loop written with
drainStep; it holds by definitional unfolding, certifying that drainStep
and drainWait restate the loop body of drainList exactly. -/
theorem drainList_cons_eq (s : RL α ε) (now : ℚ) (op : Op α ε) (rest : List (Op α ε)) :
    drainList s now (op :: rest) =
      ((drainList (drainStep s now op).1 (drainStep s now op).2.1 rest).1,
        (drainList (drainStep s now op).1 (drainStep s now op).2.1 rest).2.1,
        (drainStep s now op).2.2 ::
          (drainList (drainStep s now op).1 (drainStep s now op).2.1 rest).2.2) := rfl

/-- The drain trace has one entry per queue entry. -/
theorem drainList_length (q : List (Op α ε)) (s : RL α ε) (now : ℚ) :
    ((drainList s now q).2.2).length = q.length := by
  have h := congrArg List.length (drainList_ids q s now)
  simpa using h

/-- A drain over a nonempty queue produces a nonempty trace. -/
theorem drainList_trace_ne_nil (op : Op α ε) (rest : List (Op α ε)) (s : RL α ε)
    (now : ℚ) : (drainList s now (op :: rest)).2.2 ≠ [] := by
  intro h
  have hl := drainList_length (op :: rest) s now
  rw [h] at hl
  simp at hl

/-- The last element of a list with a nonempty tail is the last element
of the tail. -/
theorem getLast?_cons_of_ne (a : ι) (l : List ι) (h : l ≠ []) :
    (a :: l).getLast? = l.getLast? := by
  cases l with
  | nil => exact absurd rfl h
  | cons b m => simp [List.getLast?_cons_cons]

/-- One drain iteration stamps lastRequestTime with exactly the clock
reading it records in the trace entry as the call start. -/
theorem drainStep_start (s : RL α ε) (now : ℚ) (op : Op α ε) :
    (drainStep s now op).2.2.start = (drainStep s now op).1.lastRequestTime := by
  simp [drainStep, runWrapped_entry, runWrapped_lastRequestTime]

/-- After draining a nonempty queue, lastRequestTime holds the clock
reading of the most recent call start, the one recorded in the last
trace entry. -/
theorem drainList_last_start (q : List (Op α ε)) : ∀ (s : RL α ε) (now : ℚ), q ≠ [] →
    ((drainList s now q).2.2).getLast?.map Entry.start =
      some ((drainList s now q).1.lastRequestTime) := by
  induction q with
  | nil => intro s now h; exact absurd rfl h
  | cons op rest ih =>
    intro s now h
    cases rest with
    | nil =>
      rw [drainList_cons_eq]
      simp [drainList_nil, drainStep_start]
    | cons op2 rest2 =>
      rw [drainList_cons_eq,
        getLast?_cons_of_ne _ _ (drainList_trace_ne_nil _ _ _ _)]
      exact ih _ _ (by simp)

/-- C9 counterexample: a governor constructed at clock reading 5, read at
that same instant before any call has started, reports lastRequestTime
0, the field initializer, which is not the construction clock 5. -/
theorem lastRequestTime_cex :
    (getMetrics (initRL Unit Unit) 5).lastRequestTime = 0 ∧ ¬ ((0 : ℚ) = 5) :=
  ⟨rfl, by norm_num⟩

/-- C9 amended: before any call has started the metrics report
lastRequestTime 0, the numeric field initializer, independent of the
construction clock; once the drain loop has processed a nonempty queue,
the reported lastRequestTime is the clock reading recorded at the most
recent call start. -/
theorem lastRequestTime_amended (α ε : Type) :
    (∀ now : ℚ, (getMetrics (initRL α ε) now).lastRequestTime = 0) ∧
      ∀ (q : List (Op α ε)) (s : RL α ε) (now t : ℚ), q ≠ [] →
        ((drainList s now q).2.2).getLast?.map Entry.start =
          some ((getMetrics (drainList s now q).1 t).lastRequestTime) := by
  refine ⟨fun now => rfl, fun q s now t h => ?_⟩
  have hl := drainList_last_start q s now h
  simpa [getMetrics] using hl

/-- Witness for the amended C9 at a single-operation queue. -/
theorem lastRequestTime_amended_witness :
    ([(⟨7, Except.ok (), 3, 0⟩ : Op Unit Unit)] ≠ []) ∧
      ((drainList (initRL Unit Unit) 0
            [(⟨7, Except.ok (), 3, 0⟩ : Op Unit Unit)]).2.2).getLast?.map Entry.start =
        some ((getMetrics (drainList (initRL Unit Unit) 0
            [(⟨7, Except.ok (), 3, 0⟩ : Op Unit Unit)]).1 0).lastRequestTime) :=
  ⟨by simp,
    (lastRequestTime_amended Unit Unit).2 [⟨7, Except.ok (), 3, 0⟩]
      (initRL Unit Unit) 0 0 (by simp)⟩

end LinearMCP
